import Mathlib

/-!
Shallow embedding of the battleships-engine placement core.

The authoritative sources are `src/battlefield.js` and
`src/battlefieldinterfaces/randominterface.js`.  The helper classes
`Field`, `Ship` and `ShipsCollection` are imported by the sources but their
files are not part of the source tree given here, so the handful of helper
operations they provide (`getCoordinates`, `tail`, `addShip`, `removeShip`,
`getShip`, `length`, `reset`, marker setters) are modelled from the spec
(sections 3, 4.1, 4.2, 4.3); every such definition carries a
`Modelled from the spec:` doc comment.

JavaScript numbers used as grid coordinates are modelled as `Int`
(the engine performs no fractional arithmetic on them); the `[null, null]`
"unplaced" sentinel of a ship position is modelled as `Option (Int × Int)`
with `none` for the sentinel.  JS strings (the field-index keys produced by
`position.join('x')` and the marker-type argument of `markAs`) are modelled
as `List Char`.  The `Map` backing the field index is modelled as an
insertion-ordered association list, which matches JS `Map` iteration
semantics.
-/

/-- Marker state of a battlefield field: none, missed or hit. -/
inductive Marker where
  | unmarked : Marker
  | missed : Marker
  | hit : Marker
deriving DecidableEq

/-- A ship: fixed length, movable head position (with `none` as the
"unplaced" sentinel corresponding to JS `[null, null]`), orientation and
collision flag, plus its unique id.  Modelled from the spec, section 3. -/
structure Ship where
  id : Nat
  length : Nat
  position : Option (Int × Int)
  isRotated : Bool
  isCollision : Bool
deriving DecidableEq

/-- A single grid cell: its coordinate, the ids of the ships occupying it in
insertion order, and its marker.  Modelled from the spec, section 3 (the
ship references held by a JS `Field` are represented by ship ids, the ships
themselves living in the battlefield's collection). -/
structure BField where
  position : Int × Int
  ships : List Nat
  marker : Marker
deriving DecidableEq

/-- Events fired by the battlefield (`shipMoved`, `hit`, `missed`);
the `shipMoved` payload is the moved ship's id. -/
inductive BEvent where
  | shipMoved : Nat → BEvent
  | hitAt : Int × Int → BEvent
  | missedAt : Int × Int → BEvent
deriving DecidableEq

/-- The battlefield aggregate state: size, lock flag, the ships collection
(insertion order), the sparse field index (keyed by the string produced by
`position.join('x')`, modelled as `List Char`), and the list of events
fired so far. -/
structure Battlefield where
  size : Nat
  isLocked : Bool
  ships : List Ship
  fields : List (List Char × BField)
  events : List BEvent
deriving DecidableEq

/-! ### Decimal string encoding of coordinates (`position.join('x')`) -/

/-- Fuel-driven core of the decimal digit expansion (least significant digit
last, as JS `String(n)` prints it).  Structural recursion on the fuel so
that the kernel can evaluate it. -/
def natDigitsGo : Nat → Nat → List Char
  | 0, _ => []
  | fuel + 1, n =>
    if n < 10 then [Nat.digitChar n]
    else natDigitsGo fuel (n / 10) ++ [Nat.digitChar (n % 10)]

/-- Decimal digit string of a natural number, e.g. `307 ↦ ['3','0','7']`. -/
def natDigits (n : Nat) : List Char :=
  natDigitsGo (n + 1) n

/-- Decimal string of an integer, as JS `String(i)` renders an integral
number: a leading `'-'` for negative values. -/
def intDigits (i : Int) : List Char :=
  if i < 0 then '-' :: natDigits i.natAbs else natDigits i.toNat

/-- The field-index key of a coordinate: `position.join('x')` from the
source, i.e. the decimal strings of the two components joined by `'x'`. -/
def joinKey (p : Int × Int) : List Char :=
  intDigits p.1 ++ 'x' :: intDigits p.2

/-! ### The field index (a JS `Map` as an ordered association list) -/

/-- Lookup in the field index (`Map.get`). -/
def fLookup : List (List Char × BField) → List Char → Option BField
  | [], _ => none
  | (k, f) :: rest, key => if k = key then some f else fLookup rest key

/-- Point update of the field object stored under an existing key, modelling
in-place mutation of the `Field` object held by the JS `Map`. -/
def fUpdate (fs : List (List Char × BField)) (key : List Char) (g : BField → BField) :
    List (List Char × BField) :=
  fs.map fun e => if e.1 = key then (e.1, g e.2) else e

/-- Deletion from the field index (`Map.delete`). -/
def fDelete (fs : List (List Char × BField)) (key : List Char) :
    List (List Char × BField) :=
  fs.filter fun e => e.1 ≠ key

/-! ### Ship helpers (modelled from the spec) -/

/-- Modelled from the spec: `Ship#getCoordinates()` — "the sequence of
`length` consecutive cells starting at `position` along the orientation
axis" (horizontal extends in `+x`, vertical in `+y`); "fails to produce a
valid sequence (returns empty/undefined) when unplaced". -/
def shipCoordinates (s : Ship) : List (Int × Int) :=
  match s.position with
  | none => []
  | some (x, y) =>
    (List.range s.length).map fun (i : Nat) =>
      if s.isRotated then (x, (y + (i : Int))) else ((x + (i : Int)), y)

/-- Modelled from the spec: `Ship#tail` — "the last cell in that sequence". -/
def shipTail (s : Ship) : Option (Int × Int) :=
  (shipCoordinates s).getLast?

/-- Modelled from the spec: `Ship#hasPosition()` — "reports whether the
sentinel has been replaced by a real coordinate". -/
def hasPosition (s : Ship) : Bool :=
  s.position.isSome

/-- Modelled from the spec: `Ship#reset()` — "clears position to the
sentinel, orientation to false, the `isCollision` to false". -/
def shipReset (s : Ship) : Ship :=
  { s with position := none, isRotated := false, isCollision := false }

/-- Modelled from the spec: `BField#addShip(ship)` — "appends ship to
occupants (idempotent by id — adding the same ship twice does not duplicate
it)". -/
def fieldAddShip (f : BField) (sid : Nat) : BField :=
  if sid ∈ f.ships then f else { f with ships := f.ships ++ [sid] }

/-- Modelled from the spec: `BField#removeShip(id)` — "removes by id, no-op
if absent". -/
def fieldRemoveShip (f : BField) (sid : Nat) : BField :=
  { f with ships := f.ships.filter fun i => i ≠ sid }

/-- Lookup of a ship in the collection by id (the JS sources hold direct
object references; the embedding resolves them through the collection). -/
def findShip (ships : List Ship) (sid : Nat) : Option Ship :=
  ships.find? fun s => s.id = sid

/-- Point update of the ship with the given id, modelling in-place mutation
of the shared `Ship` object. -/
def updateShip (ships : List Ship) (sid : Nat) (g : Ship → Ship) : List Ship :=
  ships.map fun s => if s.id = sid then g s else s

/-! ### Battlefield operations (from `src/battlefield.js`) -/

/-- `Battlefield#getField(position)`: `this._fields.get(position.join('x'))`. -/
def getField (b : Battlefield) (p : Int × Int) : Option BField :=
  fLookup b.fields (joinKey p)

/-- `Battlefield#_getFieldOrCreate` followed by a marker/occupant mutation:
when the key is absent a fresh `Field` is appended under its `id` (which
equals the coordinate key), then the mutation is applied to the stored
object.  This single helper captures the get-or-create-then-mutate shape
used by `markAsMissed`, `markAsHit` and the placement loop of `moveShip`. -/
def getOrCreateAnd (fs : List (List Char × BField)) (p : Int × Int)
    (g : BField → BField) : List (List Char × BField) :=
  match fLookup fs (joinKey p) with
  | some _ => fUpdate fs (joinKey p) g
  | none => fs ++ [(joinKey p, g { position := p, ships := [], marker := Marker.unmarked })]

/-- Modelled from the spec: `BField#markAsMissed` sets the marker to missed
(re-marking "simply overwrites", last write wins per the section 8
scenario). -/
def fieldMarkMissed (f : BField) : BField :=
  { f with marker := Marker.missed }

/-- Modelled from the spec: `BField#markAsHit` sets the marker to hit. -/
def fieldMarkHit (f : BField) : BField :=
  { f with marker := Marker.hit }

/-- `Battlefield#markAsMissed(position)`. -/
def markAsMissed (b : Battlefield) (p : Int × Int) : Battlefield :=
  { b with
    fields := getOrCreateAnd b.fields p fieldMarkMissed,
    events := b.events ++ [BEvent.missedAt p] }

/-- `Battlefield#markAsHit(position)`. -/
def markAsHit (b : Battlefield) (p : Int × Int) : Battlefield :=
  { b with
    fields := getOrCreateAnd b.fields p fieldMarkHit,
    events := b.events ++ [BEvent.hitAt p] }

/-- The string `'missed'` as a character list. -/
def missedChars : List Char :=
  ['m', 'i', 's', 's', 'e', 'd']

/-- `Battlefield#markAs(position, type)`: dispatches to `markAsMissed` when
`type == 'missed'`, and to `markAsHit` otherwise.  The `type` argument is
`Option (List Char)` so that a missing (JS `undefined`) argument is
representable as `none`. -/
def markAs (b : Battlefield) (p : Int × Int) (type : Option (List Char)) :
    Battlefield :=
  if type = some missedChars then markAsMissed b p else markAsHit b p

/-- The clamp `moveShip` applies to the drawn coordinate before committing
it: `max = size - length`; on the orientation axis the component is replaced
by `max` when it exceeds `max` (`x > max ? max : x`) — there is no lower
clamp; the cross-axis component passes through unchanged. -/
def clampPos (size : Nat) (len : Nat) (pos : Int × Int) (rot : Bool) :
    Int × Int :=
  let mx : Int := (size : Int) - (len : Int)
  if rot then (pos.1, if pos.2 > mx then mx else pos.2)
  else (if pos.1 > mx then mx else pos.1, pos.2)

/-- One step of `moveShip`'s removal loop, at one old coordinate `p`:
`field = getField(pos); if (field && field.getShip(ship.id)) { if
(field.length == 1) fields.delete(pos.join('x')) else
field.removeShip(ship.id) }`. -/
def removeShipAt (fs : List (List Char × BField)) (p : Int × Int) (sid : Nat) :
    List (List Char × BField) :=
  match fLookup fs (joinKey p) with
  | none => fs
  | some f =>
    if sid ∈ f.ships then
      if f.ships.length = 1 then fDelete fs (joinKey p)
      else fUpdate fs (joinKey p) (fun f0 => fieldRemoveShip f0 sid)
    else fs

/-- One step of `moveShip`'s placement loop, at one new coordinate `p`:
`this._getFieldOrCreate(pos).addShip(ship)`. -/
def addShipAt (fs : List (List Char × BField)) (p : Int × Int) (sid : Nat) :
    List (List Char × BField) :=
  getOrCreateAnd fs p (fun f => fieldAddShip f sid)

/-- `Battlefield#moveShip(ship, position, isRotated)` for a ship resolved by
id from the collection.  `rotArg = none` models the JS call with the
`isRotated` argument left `undefined`, which defaults to the ship's current
orientation.  Mirrors the source order: lock guard, default, clamp, removal
loop over the old coordinates, commit of orientation and position, placement
loop over the new coordinates, `shipMoved` event. -/
def moveShip (b : Battlefield) (sid : Nat) (pos : Int × Int)
    (rotArg : Option Bool) : Battlefield :=
  if b.isLocked then b
  else
    match findShip b.ships sid with
    | none => b
    | some s =>
      let rot := rotArg.getD s.isRotated
      let newPos := clampPos b.size s.length pos rot
      let fields1 := (shipCoordinates s).foldl
        (fun fs p => removeShipAt fs p s.id) b.fields
      let s' : Ship := { s with isRotated := rot, position := some newPos }
      let fields2 := (shipCoordinates s').foldl
        (fun fs p => addShipAt fs p s.id) fields1
      { b with
        ships := updateShip b.ships sid (fun _ => s'),
        fields := fields2,
        events := b.events ++ [BEvent.shipMoved sid] }

/-- `Battlefield#rotateShip(ship)`: `this.moveShip(ship, ship.position,
!ship.isRotated)`.  For an unplaced ship the JS call destructures the
`[null, null]` sentinel, which has no integer meaning; the embedding keeps
that case as a stutter (no state change) and the rotation theorems are
stated for placed ships. -/
def rotateShip (b : Battlefield) (sid : Nat) : Battlefield :=
  match findShip b.ships sid with
  | none => b
  | some s =>
    match s.position with
    | none => b
    | some p => moveShip b sid p (some (!s.isRotated))

/-- `Battlefield#isShipInBound(ship)`: `ship.position[0] >= 0 &&
ship.tail[0] < this.size && ship.position[1] >= 0 && ship.tail[1] <
this.size`.  Unplaced ships are outside the claimed domain; the embedding
returns `false` for them. -/
def isShipInBound (b : Battlefield) (s : Ship) : Bool :=
  match s.position, shipTail s with
  | some (px, py), some (tx, ty) =>
    decide (px ≥ 0) && decide (tx < (b.size : Int)) &&
      decide (py ≥ 0) && decide (ty < (b.size : Int))
  | _, _ => false

/-- `Battlefield#reset()`: `this._fields.clear(); for (const ship of
this.shipsCollection) ship.reset();`. -/
def resetBattlefield (b : Battlefield) : Battlefield :=
  { b with fields := [], ships := b.ships.map shipReset }

/-! ### Collision check and random placement
(`src/battlefieldinterfaces/randominterface.js`) -/

/-- Modelled from the spec: `_checkShipCollision(ship)` — the "collision/
bounds check" invoked by the random strategy (section 4.5) with section
4.4's overlap criterion: a cell of the ship whose field "holds more than one
occupant" marks "every occupant on that field (including this ship)" with
`isCollision = true`; per section 9 "only the ship actively being tested is
checked against the freshly-placed board", so the tested ship's own flag is
recomputed, and it also accounts for being out of bounds (the random loop
"stop[s] retrying once the draw yields no collision" and must leave the
ship in-bounds).  Returns the updated battlefield and the check result. -/
def checkShipCollision (b : Battlefield) (sid : Nat) : Battlefield × Bool :=
  match findShip b.ships sid with
  | none => (b, false)
  | some s =>
    let sharedIds : List Nat := (shipCoordinates s).foldl
      (fun acc p =>
        match fLookup b.fields (joinKey p) with
        | some f => if f.ships.length > 1 then acc ++ f.ships else acc
        | none => acc) []
    let res : Bool := !sharedIds.isEmpty || !isShipInBound b s
    let marked := b.ships.map fun t =>
      if t.id ∈ sharedIds then { t with isCollision := true } else t
    ({ b with ships := updateShip marked sid fun t => { t with isCollision := res } },
      res)

/-- The opening of `random()`: `for (const ship of this.shipsCollection)
ship.position = [null, null]; this._fields.clear();` — every ship is set to
the unplaced sentinel (orientation and collision flag are left as they are)
and the field index is emptied. -/
def clearForRandom (b : Battlefield) : Battlefield :=
  { b with
    ships := b.ships.map fun s => { s with position := none },
    fields := [] }

/-- The retry loop of `random()` for a single ship, with explicit fuel for
the unbounded `while (!done)` loop: draw `isRotated = !!random(0, 1)`,
`x = random(0, size - 1)`, `y = random(0, size - 1)`, move the ship there,
re-check, and stop once the check reports no collision.  The random source
is a function of a draw counter and the requested closed range; the counter
is threaded through and returned. -/
def placeOneShip (rand : Nat → Int → Int → Int) :
    Nat → Battlefield → Nat → Nat → Option (Battlefield × Nat)
  | 0, _, _, _ => none
  | fuel + 1, b, sid, n =>
    let rot : Bool := decide (rand n 0 1 ≠ 0)
    let x := rand (n + 1) 0 ((b.size : Int) - 1)
    let y := rand (n + 2) 0 ((b.size : Int) - 1)
    let b1 := moveShip b sid (x, y) (some rot)
    match checkShipCollision b1 sid with
    | (b2, coll) =>
      if coll then placeOneShip rand fuel b2 sid (n + 3)
      else some (b2, n + 3)

/-- The outer loop of `random()`: place each ship of the given id list in
turn, threading the battlefield state and the draw counter. -/
def placeAll (rand : Nat → Int → Int → Int) (fuel : Nat) :
    List Nat → Battlefield → Nat → Option Battlefield
  | [], b, _ => some b
  | sid :: rest, b, n =>
    match placeOneShip rand fuel b sid n with
    | none => none
    | some (b', n') => placeAll rand fuel rest b' n'

/-- `random()` from `src/battlefieldinterfaces/randominterface.js`: unplace
every ship, clear the field index, then process the ships in reverse
collection order (`this.shipsCollection.getReversed()`), re-rolling each
until its check reports no collision.  Fuel bounds the per-ship retry loop;
`none` models non-termination within the given fuel. -/
def randomPlace (rand : Nat → Int → Int → Int) (fuel : Nat)
    (b : Battlefield) : Option Battlefield :=
  placeAll rand fuel ((b.ships.map Ship.id).reverse) (clearForRandom b) 0

/-! ### Predicates and helpers used by the verification theorems -/

/-- The decimal value of a digit character (left inverse of
`Nat.digitChar` on digits; used to prove the key encoding injective). -/
def digitVal (c : Char) : Nat :=
  if c = '0' then 0 else if c = '1' then 1 else if c = '2' then 2
  else if c = '3' then 3 else if c = '4' then 4 else if c = '5' then 5
  else if c = '6' then 6 else if c = '7' then 7 else if c = '8' then 8
  else 9

/-- The number denoted by a digit string (most significant digit first). -/
def digitsVal (l : List Char) : Nat :=
  l.foldl (fun a c => 10 * a + digitVal c) 0

/-- Ship `sid` occupies the field stored under key `k` in the index. -/
def RegK (fs : List (List Char × BField)) (sid : Nat) (k : List Char) : Prop :=
  ∃ f, fLookup fs k = some f ∧ sid ∈ f.ships

/-- Ship `sid` is registered as occupant of the field at coordinate `p`. -/
def shipRegisteredAt (b : Battlefield) (sid : Nat) (p : Int × Int) : Prop :=
  ∃ f, getField b p = some f ∧ sid ∈ f.ships

/-- The placement-relevant part of a ship's state: everything except the
`isCollision` flag (which later collision checks may re-mark). -/
def shipCore (s : Ship) : Nat × Nat × Option (Int × Int) × Bool :=
  (s.id, s.length, s.position, s.isRotated)

/-- Outcome guaranteed by a terminating `random()` run: every ship of the
collection is placed, lies in bounds, and its state is the one produced by
its final collision/bounds check, which reported no collision. -/
def randomEnsures (b' : Battlefield) : Prop :=
  ∀ s ∈ b'.ships,
    hasPosition s = true ∧ isShipInBound b' s = true ∧
    ∃ bPre bPost, checkShipCollision bPre s.id = (bPost, false) ∧
      b'.size = bPost.size ∧
      (findShip bPost.ships s.id).map shipCore = some (shipCore s)

/-- An unplaced length-2 ship with id 1, used by the concrete examples. -/
def exShip0 : Ship :=
  { id := 1, length := 2, position := none, isRotated := false,
    isCollision := false }

/-- A 5×5 battlefield holding one unplaced length-2 ship, used by the
concrete counterexamples and witnesses. -/
def exBoard : Battlefield :=
  { size := 5, isLocked := false, ships := [exShip0],
    fields := [], events := [] }

/-- `exBoard` with its ship placed at `[0,0]` (occupying `[0,0]` and
`[1,0]`). -/
def exPlaced : Battlefield :=
  moveShip exBoard 1 (0, 0) (some false)

/-- `exPlaced` after `markAsHit([0,0])`: the occupied field `[0,0]` carries
the hit marker. -/
def exHitMarked : Battlefield :=
  markAsHit exPlaced (0, 0)

/-- `exHitMarked` after moving the ship away to `[1,1]`. -/
def exMovedAway : Battlefield :=
  moveShip exHitMarked 1 (1, 1) (some false)

/-- A 1×1 battlefield with a single length-1 ship, used as the concrete
witness input for the random-placement theorem. -/
def exTiny : Battlefield :=
  { size := 1, isLocked := false,
    ships := [{ id := 1, length := 1, position := none, isRotated := false,
                isCollision := false }],
    fields := [], events := [] }

/-- A random source that always returns the lower end of the requested
range (a legitimate uniform source outcome). -/
def randLo : Nat → Int → Int → Int :=
  fun _ lo _ => lo

/-- The state `randomPlace randLo 1 exTiny` computes: the ship placed at
`[0,0]`, one field occupied, one `shipMoved` event. -/
def exTinyPlaced : Battlefield :=
  { size := 1, isLocked := false,
    ships := [{ id := 1, length := 1, position := some (0, 0),
                isRotated := false, isCollision := false }],
    fields := [(['0', 'x', '0'],
      { position := (0, 0), ships := [1], marker := Marker.unmarked })],
    events := [BEvent.shipMoved 1] }

/-- Postcondition of `moveShip` for claim C3, with `s'` the ship's state
after the move: the new coordinates are exactly `L` pairwise-distinct
cells, the ship is registered on precisely the fields of those cells, and
on no previously occupied cell outside them. -/
def moveOccupancyPost (sid : Nat) (sOld s' : Ship) (b' : Battlefield) : Prop :=
  (shipCoordinates s').length = s'.length ∧
  (shipCoordinates s').Nodup ∧
  (∀ p : Int × Int, shipRegisteredAt b' sid p ↔ p ∈ shipCoordinates s') ∧
  (∀ p ∈ shipCoordinates sOld, p ∉ shipCoordinates s' →
    ¬ shipRegisteredAt b' sid p)

/-- The ship of `exPlaced`: length 2, head `[0,0]`, horizontal. -/
def exShip : Ship :=
  { id := 1, length := 2, position := some (0, 0), isRotated := false,
    isCollision := false }

/-- A locked copy of `exBoard`. -/
def exLocked : Battlefield :=
  { exBoard with isLocked := true }

/-! ## Theorems

### The coordinate key encoding -/

theorem natDigitsGo_congr : ∀ f1 f2 n, n < f1 → n < f2 →
    natDigitsGo f1 n = natDigitsGo f2 n := by
  intro f1
  induction f1 with
  | zero => intro f2 n h1 _; omega
  | succ f ih =>
    intro f2 n h1 h2
    match f2, h2 with
    | f2 + 1, h2 =>
      by_cases h : n < 10
      · simp [natDigitsGo, h]
      · have hn : 0 < n := by omega
        have hd : n / 10 < n := Nat.div_lt_self hn (by omega)
        simp only [natDigitsGo, h, if_false]
        rw [ih f2 (n / 10) (by omega) (by omega)]

theorem natDigits_eq_small {n : Nat} (h : n < 10) :
    natDigits n = [Nat.digitChar n] := by
  simp [natDigits, natDigitsGo, h]

theorem natDigits_eq_step {n : Nat} (h : 10 ≤ n) :
    natDigits n = natDigits (n / 10) ++ [Nat.digitChar (n % 10)] := by
  have hd : n / 10 < n := Nat.div_lt_self (by omega) (by omega)
  calc natDigits n = natDigitsGo (n + 1) n := rfl
    _ = natDigitsGo n (n / 10) ++ [Nat.digitChar (n % 10)] := by
        simp [natDigitsGo, Nat.not_lt.mpr h]
    _ = natDigitsGo (n / 10 + 1) (n / 10) ++ [Nat.digitChar (n % 10)] := by
        rw [natDigitsGo_congr n (n / 10 + 1) (n / 10) (by omega) (by omega)]
    _ = natDigits (n / 10) ++ [Nat.digitChar (n % 10)] := rfl

theorem digitVal_digitChar {d : Nat} (h : d < 10) :
    digitVal (Nat.digitChar d) = d := by
  interval_cases d <;> rfl

theorem digitChar_ne_x {d : Nat} (h : d < 10) : Nat.digitChar d ≠ 'x' := by
  interval_cases d <;> decide

theorem digitChar_ne_dash {d : Nat} (h : d < 10) : Nat.digitChar d ≠ '-' := by
  interval_cases d <;> decide

theorem digitsVal_concat (l : List Char) (c : Char) :
    digitsVal (l ++ [c]) = 10 * digitsVal l + digitVal c := by
  simp [digitsVal, List.foldl_append]

theorem digitsVal_natDigits : ∀ n, digitsVal (natDigits n) = n := by
  intro n
  induction n using Nat.strong_induction_on with
  | _ n ih =>
    by_cases h : n < 10
    · rw [natDigits_eq_small h]
      simp [digitsVal, digitVal_digitChar h]
    · have h10 : 10 ≤ n := by omega
      have hd : n / 10 < n := Nat.div_lt_self (by omega) (by omega)
      rw [natDigits_eq_step h10, digitsVal_concat,
        ih (n / 10) hd, digitVal_digitChar (Nat.mod_lt n (by omega))]
      omega

theorem natDigits_inj {m n : Nat} (h : natDigits m = natDigits n) : m = n := by
  have := digitsVal_natDigits m
  rw [h, digitsVal_natDigits] at this
  omega

theorem natDigits_chars : ∀ n c, c ∈ natDigits n → c ≠ 'x' ∧ c ≠ '-' := by
  intro n
  induction n using Nat.strong_induction_on with
  | _ n ih =>
    intro c hc
    by_cases h : n < 10
    · rw [natDigits_eq_small h] at hc
      simp only [List.mem_singleton] at hc
      exact hc ▸ ⟨digitChar_ne_x h, digitChar_ne_dash h⟩
    · have h10 : 10 ≤ n := by omega
      have hd : n / 10 < n := Nat.div_lt_self (by omega) (by omega)
      rw [natDigits_eq_step h10, List.mem_append] at hc
      rcases hc with hc | hc
      · exact ih (n / 10) hd c hc
      · simp only [List.mem_singleton] at hc
        have hm : n % 10 < 10 := Nat.mod_lt n (by omega)
        exact hc ▸ ⟨digitChar_ne_x hm, digitChar_ne_dash hm⟩

theorem natDigits_ne_nil (n : Nat) : natDigits n ≠ [] := by
  by_cases h : n < 10
  · rw [natDigits_eq_small h]; simp
  · rw [natDigits_eq_step (by omega)]; simp

theorem intDigits_inj {i j : Int} (h : intDigits i = intDigits j) : i = j := by
  unfold intDigits at h
  by_cases hi : i < 0 <;> by_cases hj : j < 0 <;> simp [hi, hj] at h
  · have := natDigits_inj h
    omega
  · exfalso
    rcases hn : natDigits j.toNat with _ | ⟨c, l⟩
    · exact natDigits_ne_nil _ hn
    · rw [hn] at h
      have hc : c ∈ natDigits j.toNat := by rw [hn]; exact List.mem_cons_self _ _
      injection h with h1 _
      exact (natDigits_chars _ _ hc).2 h1.symm
  · exfalso
    rcases hn : natDigits i.toNat with _ | ⟨c, l⟩
    · exact natDigits_ne_nil _ hn
    · rw [hn] at h
      have hc : c ∈ natDigits i.toNat := by rw [hn]; exact List.mem_cons_self _ _
      injection h with h1 _
      exact (natDigits_chars _ _ hc).2 h1
  · have := natDigits_inj h
    omega

theorem intDigits_no_x : ∀ i c, c ∈ intDigits i → c ≠ 'x' := by
  intro i c hc
  unfold intDigits at hc
  by_cases hi : i < 0 <;> simp [hi] at hc
  · rcases hc with hc | hc
    · subst hc; decide
    · exact (natDigits_chars _ _ hc).1
  · exact (natDigits_chars _ _ hc).1

theorem splitKey : ∀ a c : List Char, ∀ b d : List Char,
    'x' ∉ a → 'x' ∉ c → a ++ 'x' :: b = c ++ 'x' :: d → a = c ∧ b = d := by
  intro a
  induction a with
  | nil =>
    intro c b d _ hc h
    cases c with
    | nil => simpa using h
    | cons c0 cs =>
      exfalso
      simp only [List.nil_append, List.cons_append, List.cons.injEq] at h
      exact hc (h.1 ▸ List.mem_cons_self _ _)
  | cons a0 as ih =>
    intro c b d ha hc h
    cases c with
    | nil =>
      exfalso
      simp only [List.cons_append, List.nil_append, List.cons.injEq] at h
      exact ha (h.1 ▸ List.mem_cons_self _ _)
    | cons c0 cs =>
      simp only [List.cons_append, List.cons.injEq] at h
      have ha' : 'x' ∉ as := fun hm => ha (List.mem_cons_of_mem _ hm)
      have hc' : 'x' ∉ cs := fun hm => hc (List.mem_cons_of_mem _ hm)
      obtain ⟨h1, h2⟩ := ih cs b d ha' hc' h.2
      exact ⟨by rw [h.1, h1], h2⟩

theorem joinKey_inj {p q : Int × Int} (h : joinKey p = joinKey q) : p = q := by
  unfold joinKey at h
  have hp : 'x' ∉ intDigits p.1 := fun hm => intDigits_no_x _ _ hm rfl
  have hq : 'x' ∉ intDigits q.1 := fun hm => intDigits_no_x _ _ hm rfl
  obtain ⟨h1, h2⟩ := splitKey _ _ _ _ hp hq h
  have e1 := intDigits_inj h1
  have e2 := intDigits_inj h2
  exact Prod.ext e1 e2

/-! ### Field-index lemmas -/

theorem fLookup_fUpdate (fs : List (List Char × BField)) (k k' : List Char)
    (g : BField → BField) :
    fLookup (fUpdate fs k g) k' =
      if k' = k then (fLookup fs k').map g else fLookup fs k' := by
  induction fs with
  | nil => simp [fUpdate, fLookup]
  | cons e rest ih =>
    simp only [fUpdate, List.map_cons] at ih ⊢
    by_cases he : e.1 = k
    · rw [if_pos he]
      simp only [fLookup]
      by_cases hk' : e.1 = k'
      · have hkk : k' = k := by rw [← hk', he]
        simp only [if_pos hk', if_pos hkk, Option.map_some']
      · have hkk := ih
        simp only [if_neg hk', hkk]
    · rw [if_neg he]
      simp only [fLookup]
      by_cases hk' : e.1 = k'
      · have hkk : ¬(k' = k) := fun h => he (by rw [hk', h])
        simp only [if_pos hk', if_neg hkk]
      · simp only [if_neg hk', ih]

theorem fLookup_fDelete_self (fs : List (List Char × BField)) (k : List Char) :
    fLookup (fDelete fs k) k = none := by
  induction fs with
  | nil => simp [fDelete, fLookup]
  | cons e rest ih =>
    simp only [fDelete, List.filter_cons, decide_eq_true_eq] at ih ⊢
    by_cases he : e.1 = k
    · rw [if_neg (fun h : e.1 ≠ k => h he)]
      exact ih
    · rw [if_pos he]
      simp only [fLookup, if_neg he]
      exact ih

theorem fLookup_fDelete_ne (fs : List (List Char × BField)) (k k' : List Char)
    (h : k' ≠ k) : fLookup (fDelete fs k) k' = fLookup fs k' := by
  induction fs with
  | nil => simp [fDelete]
  | cons e rest ih =>
    simp only [fDelete, List.filter_cons, decide_eq_true_eq] at ih ⊢
    by_cases he : e.1 = k
    · rw [if_neg (fun hh : e.1 ≠ k => hh he)]
      have he' : ¬(e.1 = k') := fun hh => h (by rw [← hh, he])
      simp only [fLookup, if_neg he']
      exact ih
    · rw [if_pos he]
      simp only [fLookup]
      by_cases he' : e.1 = k'
      · simp only [if_pos he']
      · simp only [if_neg he', ih]

theorem fLookup_append_ne (fs : List (List Char × BField)) (k k' : List Char)
    (f : BField) (h : k' ≠ k) :
    fLookup (fs ++ [(k, f)]) k' = fLookup fs k' := by
  induction fs with
  | nil =>
    simp only [List.nil_append, fLookup]
    rw [if_neg (fun hh : k = k' => h hh.symm)]
  | cons e rest ih =>
    simp only [List.cons_append, fLookup]
    by_cases he : e.1 = k'
    · simp only [if_pos he]
    · simp only [if_neg he, List.append_eq, ih]

theorem fLookup_append_self (fs : List (List Char × BField)) (k : List Char)
    (f : BField) (h : fLookup fs k = none) :
    fLookup (fs ++ [(k, f)]) k = some f := by
  induction fs with
  | nil => simp [fLookup]
  | cons e rest ih =>
    simp only [fLookup] at h
    by_cases he : e.1 = k
    · rw [if_pos he] at h
      exact absurd h (by simp)
    · rw [if_neg he] at h
      simp only [List.cons_append, fLookup, if_neg he]
      exact ih h

/-! ### Removal/placement step lemmas -/

theorem removeShipAt_lookup_ne (fs : List (List Char × BField)) (p : Int × Int)
    (sid : Nat) (k : List Char) (h : k ≠ joinKey p) :
    fLookup (removeShipAt fs p sid) k = fLookup fs k := by
  unfold removeShipAt
  cases hl : fLookup fs (joinKey p) with
  | none => rfl
  | some f =>
    by_cases hm : sid ∈ f.ships
    · by_cases h1 : f.ships.length = 1
      · simp only [if_pos hm, if_pos h1]
        exact fLookup_fDelete_ne _ _ _ h
      · simp only [if_pos hm, if_neg h1]
        rw [fLookup_fUpdate, if_neg h]
    · simp only [if_neg hm]

theorem removeShipAt_none (fs : List (List Char × BField)) (p : Int × Int)
    (sid : Nat) (k : List Char) (h : fLookup fs k = none) :
    fLookup (removeShipAt fs p sid) k = none := by
  by_cases hk : k = joinKey p
  · subst hk
    simp only [removeShipAt, h]
  · rw [removeShipAt_lookup_ne _ _ _ _ hk]
    exact h

theorem removeShipAt_sole (fs : List (List Char × BField)) (p : Int × Int)
    (sid : Nat) (f : BField) (h : fLookup fs (joinKey p) = some f)
    (hs : f.ships = [sid]) :
    fLookup (removeShipAt fs p sid) (joinKey p) = none := by
  unfold removeShipAt
  rw [h]
  have hm : sid ∈ f.ships := by rw [hs]; exact List.mem_cons_self _ _
  have h1 : f.ships.length = 1 := by rw [hs]; rfl
  simp only [if_pos hm, if_pos h1]
  exact fLookup_fDelete_self _ _

theorem addShipAt_lookup_ne (fs : List (List Char × BField)) (p : Int × Int)
    (sid : Nat) (k : List Char) (h : k ≠ joinKey p) :
    fLookup (addShipAt fs p sid) k = fLookup fs k := by
  unfold addShipAt getOrCreateAnd
  cases hl : fLookup fs (joinKey p) with
  | none => exact fLookup_append_ne _ _ _ _ h
  | some f =>
    rw [fLookup_fUpdate, if_neg h]

theorem mem_fieldAddShip (f : BField) (sid : Nat) :
    sid ∈ (fieldAddShip f sid).ships := by
  unfold fieldAddShip
  by_cases h : sid ∈ f.ships
  · simp only [if_pos h]
    exact h
  · simp [h]

theorem regK_removeShipAt (fs : List (List Char × BField)) (p : Int × Int)
    (sid : Nat) (k : List Char) :
    RegK (removeShipAt fs p sid) sid k ↔ RegK fs sid k ∧ k ≠ joinKey p := by
  by_cases hk : k = joinKey p
  · subst hk
    simp only [ne_eq, not_true_eq_false, and_false, iff_false]
    rintro ⟨f, hf, hm⟩
    cases hl : fLookup fs (joinKey p) with
    | none =>
      simp only [removeShipAt, hl] at hf
      exact Option.noConfusion hf
    | some f0 =>
      simp only [removeShipAt, hl] at hf
      by_cases hm0 : sid ∈ f0.ships
      · by_cases h1 : f0.ships.length = 1
        · rw [if_pos hm0, if_pos h1] at hf
          rw [fLookup_fDelete_self] at hf
          exact Option.noConfusion hf
        · rw [if_pos hm0, if_neg h1, fLookup_fUpdate, if_pos rfl, hl] at hf
          simp only [Option.map_some', Option.some.injEq] at hf
          rw [← hf] at hm
          simp only [fieldRemoveShip, List.mem_filter, decide_eq_true_eq] at hm
          exact hm.2 rfl
      · rw [if_neg hm0, hl] at hf
        injection hf with hf
        exact hm0 (hf ▸ hm)
  · unfold RegK
    rw [removeShipAt_lookup_ne _ _ _ _ hk]
    simp [hk]

theorem regK_addShipAt (fs : List (List Char × BField)) (p : Int × Int)
    (sid : Nat) (k : List Char) :
    RegK (addShipAt fs p sid) sid k ↔ RegK fs sid k ∨ k = joinKey p := by
  by_cases hk : k = joinKey p
  · subst hk
    simp only [or_true, iff_true]
    unfold addShipAt getOrCreateAnd
    cases hl : fLookup fs (joinKey p) with
    | none =>
      exact ⟨_, fLookup_append_self _ _ _ hl, mem_fieldAddShip _ _⟩
    | some f =>
      refine ⟨fieldAddShip f sid, ?_, mem_fieldAddShip _ _⟩
      rw [fLookup_fUpdate, if_pos rfl, hl]
      rfl
  · unfold RegK
    rw [addShipAt_lookup_ne _ _ _ _ hk]
    simp [hk]

/-! ### Fold lemmas for the two loops of `moveShip` -/

theorem regK_removeFold (sid : Nat) (k : List Char) :
    ∀ (l : List (Int × Int)) (fs : List (List Char × BField)),
      RegK (l.foldl (fun fs p => removeShipAt fs p sid) fs) sid k ↔
        RegK fs sid k ∧ ∀ p ∈ l, k ≠ joinKey p := by
  intro l
  induction l with
  | nil => intro fs; simp
  | cons q rest ih =>
    intro fs
    simp only [List.foldl_cons]
    rw [ih, regK_removeShipAt, List.forall_mem_cons]
    tauto

theorem regK_addFold (sid : Nat) (k : List Char) :
    ∀ (l : List (Int × Int)) (fs : List (List Char × BField)),
      RegK (l.foldl (fun fs p => addShipAt fs p sid) fs) sid k ↔
        RegK fs sid k ∨ ∃ p ∈ l, k = joinKey p := by
  intro l
  induction l with
  | nil => intro fs; simp
  | cons q rest ih =>
    intro fs
    simp only [List.foldl_cons]
    rw [ih, regK_addShipAt]
    constructor
    · rintro ((h | h) | ⟨p, hp, he⟩)
      · exact Or.inl h
      · exact Or.inr ⟨q, List.mem_cons_self _ _, h⟩
      · exact Or.inr ⟨p, List.mem_cons_of_mem _ hp, he⟩
    · rintro (h | ⟨p, hp, he⟩)
      · exact Or.inl (Or.inl h)
      · rcases List.mem_cons.mp hp with rfl | hp
        · exact Or.inl (Or.inr he)
        · exact Or.inr ⟨p, hp, he⟩

theorem removeFold_lookup_none (sid : Nat) (k : List Char) :
    ∀ (l : List (Int × Int)) (fs : List (List Char × BField)),
      fLookup fs k = none →
      fLookup (l.foldl (fun fs p => removeShipAt fs p sid) fs) k = none := by
  intro l
  induction l with
  | nil => intro fs h; exact h
  | cons q rest ih =>
    intro fs h
    simp only [List.foldl_cons]
    exact ih _ (removeShipAt_none _ _ _ _ h)

theorem addFold_lookup_ne (sid : Nat) (k : List Char) :
    ∀ (l : List (Int × Int)) (fs : List (List Char × BField)),
      (∀ p ∈ l, k ≠ joinKey p) →
      fLookup (l.foldl (fun fs p => addShipAt fs p sid) fs) k = fLookup fs k := by
  intro l
  induction l with
  | nil => intro fs _; rfl
  | cons q rest ih =>
    intro fs h
    simp only [List.foldl_cons]
    rw [ih _ fun p hp => h p (List.mem_cons_of_mem _ hp)]
    exact addShipAt_lookup_ne _ _ _ _ (h q (List.mem_cons_self _ _))

theorem removeFold_deletes_sole (sid : Nat) (p0 : Int × Int) :
    ∀ (l : List (Int × Int)) (fs : List (List Char × BField)) (f : BField),
      p0 ∈ l → fLookup fs (joinKey p0) = some f → f.ships = [sid] →
      fLookup (l.foldl (fun fs p => removeShipAt fs p sid) fs) (joinKey p0) = none := by
  intro l
  induction l with
  | nil => intro fs f h; exact absurd h (List.not_mem_nil _)
  | cons q rest ih =>
    intro fs f hmem hlook hsole
    simp only [List.foldl_cons]
    by_cases hq : joinKey p0 = joinKey q
    · have h0 : fLookup fs (joinKey q) = some f := hq ▸ hlook
      have hdel := removeShipAt_sole fs q sid f h0 hsole
      exact removeFold_lookup_none sid _ rest _ (hq ▸ hdel)
    · rcases List.mem_cons.mp hmem with rfl | hmem'
      · exact absurd rfl hq
      · exact ih _ f hmem'
          (by rw [removeShipAt_lookup_ne _ _ _ _ hq]; exact hlook) hsole

/-! ### Ship and collection lemmas -/

theorem shipCoordinates_length {s : Ship} {pq : Int × Int}
    (h : s.position = some pq) : (shipCoordinates s).length = s.length := by
  obtain ⟨x, y⟩ := pq
  simp only [shipCoordinates, h, List.length_map, List.length_range]

theorem shipCoordinates_nodup (s : Ship) : (shipCoordinates s).Nodup := by
  cases hp : s.position with
  | none => simp [shipCoordinates, hp]
  | some pq =>
    obtain ⟨x, y⟩ := pq
    cases hr : s.isRotated
    · simp only [shipCoordinates, hp, hr, Bool.false_eq_true, if_false]
      refine List.Nodup.map ?_ (List.nodup_range _)
      intro i j hij
      simp only [Prod.mk.injEq] at hij
      obtain ⟨h1, _⟩ := hij
      omega
    · simp only [shipCoordinates, hp, hr, if_true]
      refine List.Nodup.map ?_ (List.nodup_range _)
      intro i j hij
      simp only [Prod.mk.injEq] at hij
      obtain ⟨_, h2⟩ := hij
      omega

theorem findShip_id {l : List Ship} {sid : Nat} {s : Ship}
    (h : findShip l sid = some s) : s.id = sid := by
  unfold findShip at h
  have := List.find?_some h
  simpa using this

theorem findShip_updateShip_self {l : List Ship} {sid : Nat} {s : Ship}
    (g : Ship → Ship) (h : findShip l sid = some s)
    (hg : ∀ t, t.id = sid → (g t).id = sid) :
    findShip (updateShip l sid g) sid = some (g s) := by
  induction l with
  | nil => exact absurd h (by simp [findShip])
  | cons t rest ih =>
    simp only [findShip, updateShip, List.map_cons] at h ⊢
    by_cases ht : t.id = sid
    · rw [if_pos ht]
      simp only [List.find?, decide_eq_true (hg t ht)]
      simp only [List.find?, decide_eq_true ht] at h
      injection h with h
      rw [h]
    · rw [if_neg ht]
      simp only [List.find?, decide_eq_false ht] at h ⊢
      exact ih h

theorem findShip_updateShip_ne {l : List Ship} {sid tid : Nat}
    (g : Ship → Ship) (h : tid ≠ sid)
    (hg : ∀ t, t.id = sid → (g t).id = sid) :
    findShip (updateShip l sid g) tid = findShip l tid := by
  induction l with
  | nil => rfl
  | cons t rest ih =>
    simp only [findShip, updateShip, List.map_cons] at ih ⊢
    by_cases ht : t.id = sid
    · have h1 : ¬((g t).id = tid) := fun hh => h (by rw [← hh, hg t ht])
      have h2 : ¬(t.id = tid) := fun hh => h (by rw [← hh, ht])
      rw [if_pos ht]
      simp only [List.find?, decide_eq_false h1, decide_eq_false h2]
      exact ih
    · rw [if_neg ht]
      by_cases ht' : t.id = tid
      · simp only [List.find?, decide_eq_true ht']
      · simp only [List.find?, decide_eq_false ht']
        exact ih

theorem updateShip_map_id {l : List Ship} {sid : Nat} (g : Ship → Ship)
    (hg : ∀ t, t.id = sid → (g t).id = t.id) :
    (updateShip l sid g).map Ship.id = l.map Ship.id := by
  induction l with
  | nil => rfl
  | cons t rest ih =>
    simp only [updateShip, List.map_cons] at ih ⊢
    by_cases ht : t.id = sid
    · rw [if_pos ht, hg t ht, ih]
    · rw [if_neg ht, ih]

theorem moveShip_eq {b : Battlefield} {sid : Nat} {s : Ship}
    (pos : Int × Int) (rotArg : Option Bool) (hl : b.isLocked = false)
    (hf : findShip b.ships sid = some s) :
    moveShip b sid pos rotArg =
      { b with
        ships := updateShip b.ships sid fun _ =>
          { s with isRotated := rotArg.getD s.isRotated,
                   position := some (clampPos b.size s.length pos
                     (rotArg.getD s.isRotated)) },
        fields := (shipCoordinates
            { s with isRotated := rotArg.getD s.isRotated,
                     position := some (clampPos b.size s.length pos
                       (rotArg.getD s.isRotated)) }).foldl
          (fun fs p => addShipAt fs p s.id)
          ((shipCoordinates s).foldl (fun fs p => removeShipAt fs p s.id)
            b.fields),
        events := b.events ++ [BEvent.shipMoved sid] } := by
  simp only [moveShip, hl, Bool.false_eq_true, if_false, hf, addShipAt]

/-! ### Claim theorems: lock, reset, dispatch, rotation, keys -/

/-- C5: when `isLocked` is true, `moveShip` is a no-op — the returned
battlefield is the input state unchanged: same ship positions and
orientations, same field index, and no additional event (in particular no
`shipMoved` event is emitted). -/
theorem moveShip_locked_noop (b : Battlefield) (sid : Nat) (pos : Int × Int)
    (rotArg : Option Bool) (h : b.isLocked = true) :
    moveShip b sid pos rotArg = b := by
  simp [moveShip, h]

/-- Witness for C5 at a concrete locked battlefield. -/
theorem moveShip_locked_noop_witness :
    moveShip exLocked 1 (2, 2) (some true) = exLocked :=
  moveShip_locked_noop exLocked 1 (2, 2) (some true) rfl

/-- C7: `reset()` clears the entire field index (iterating the battlefield
yields zero fields) and resets every ship of the collection: no position,
collision flag cleared, orientation reset to unrotated. -/
theorem reset_clears (b : Battlefield) :
    (resetBattlefield b).fields = [] ∧
    ∀ s ∈ (resetBattlefield b).ships,
      hasPosition s = false ∧ s.isCollision = false ∧ s.isRotated = false := by
  refine ⟨rfl, ?_⟩
  intro s hs
  simp only [resetBattlefield, List.mem_map] at hs
  obtain ⟨t, _, rfl⟩ := hs
  simp [shipReset, hasPosition]

/-- Witness for C7: resetting `exPlaced` empties the index and unplaces its
ship. -/
theorem reset_clears_witness :
    (resetBattlefield exPlaced).fields = [] ∧
    hasPosition (shipReset exShip) = false ∧
    (shipReset exShip).isCollision = false ∧
    (shipReset exShip).isRotated = false :=
  ⟨(reset_clears exPlaced).1,
    (reset_clears exPlaced).2 (shipReset exShip) (by decide)⟩

/-- C8: the field-index key encoding (`position.join('x')`) is injective
over non-negative integer pairs — two distinct pairs never produce the same
key, so no two distinct coordinates address the same field. -/
theorem joinKey_injective_nonneg (p q : Nat × Nat) (h : p ≠ q) :
    joinKey ((p.1 : Int), (p.2 : Int)) ≠ joinKey ((q.1 : Int), (q.2 : Int)) := by
  intro he
  apply h
  have h2 := joinKey_inj he
  simp only [Prod.mk.injEq, Nat.cast_inj] at h2
  exact Prod.ext h2.1 h2.2

/-- Witness for C8 at the concrete pairs `(0,1)` and `(1,0)`. -/
theorem joinKey_injective_nonneg_witness :
    joinKey ((((0 : Nat), (1 : Nat)).1 : Int), (((0 : Nat), (1 : Nat)).2 : Int)) ≠
      joinKey ((((1 : Nat), (0 : Nat)).1 : Int), (((1 : Nat), (0 : Nat)).2 : Int)) :=
  joinKey_injective_nonneg (0, 1) (1, 0) (by decide)

/-- C9: for a placed ship, `rotateShip(ship)` is exactly
`moveShip(ship, ship.position, !ship.isRotated)` — the two calls produce
identical battlefield state (ships, fields and emitted events). -/
theorem rotateShip_eq_moveShip (b : Battlefield) (sid : Nat) (s : Ship)
    (p : Int × Int) (hf : findShip b.ships sid = some s)
    (hp : s.position = some p) :
    rotateShip b sid = moveShip b sid p (some (!s.isRotated)) := by
  simp [rotateShip, hf, hp]

/-- Witness for C9 on `exPlaced`. -/
theorem rotateShip_eq_moveShip_witness :
    rotateShip exPlaced 1 = moveShip exPlaced 1 (0, 0) (some (!false)) :=
  rotateShip_eq_moveShip exPlaced 1 exShip (0, 0) (by decide) (by decide)

/-- C10: `markAs(position, type)` dispatches on the exact string `'missed'`:
for that value it is `markAsMissed(position)`, and for every other value —
`'hit'`, any invalid string, or a missing argument — it is
`markAsHit(position)`. -/
theorem markAs_dispatch (b : Battlefield) (p : Int × Int)
    (t : Option (List Char)) (h : t ≠ some missedChars) :
    markAs b p t = markAsHit b p ∧
    markAs b p (some missedChars) = markAsMissed b p := by
  constructor
  · simp [markAs, h]
  · simp [markAs]

/-- Witness for C10 with a missing `type` argument. -/
theorem markAs_dispatch_witness :
    markAs exBoard (0, 0) none = markAsHit exBoard (0, 0) ∧
    markAs exBoard (0, 0) (some missedChars) = markAsMissed exBoard (0, 0) :=
  markAs_dispatch exBoard (0, 0) none (by decide)

/-! ### Bounds check (C6) -/

theorem shipTail_eq {s : Ship} {x y : Int} {k : Nat}
    (hp : s.position = some (x, y)) (hl : s.length = k + 1) :
    shipTail s =
      some (if s.isRotated then (x, y + (k : Int)) else (x + (k : Int), y)) := by
  unfold shipTail
  simp only [shipCoordinates, hp, hl, List.range_succ, List.map_append,
    List.map_cons, List.map_nil]
  rw [List.getLast?_concat]

/-- C6: for a placed ship, `isShipInBound` returns true exactly when both
the head and the tail coordinate have both components in `[0, size)`. -/
theorem isShipInBound_iff (b : Battlefield) (s : Ship) (x y tx ty : Int)
    (hp : s.position = some (x, y)) (ht : shipTail s = some (tx, ty))
    (hl : 0 < s.length) :
    isShipInBound b s = true ↔
      (0 ≤ x ∧ x < (b.size : Int) ∧ 0 ≤ y ∧ y < (b.size : Int) ∧
       0 ≤ tx ∧ tx < (b.size : Int) ∧ 0 ≤ ty ∧ ty < (b.size : Int)) := by
  obtain ⟨k, hk⟩ : ∃ k, s.length = k + 1 := ⟨s.length - 1, by omega⟩
  have htail := shipTail_eq hp hk
  rw [ht] at htail
  simp only [isShipInBound, hp, ht, Bool.and_eq_true, decide_eq_true_eq,
    ge_iff_le]
  cases hr : s.isRotated
  · rw [hr] at htail
    simp only [Bool.false_eq_true, if_false, Option.some.injEq,
      Prod.mk.injEq] at htail
    obtain ⟨h1, h2⟩ := htail
    constructor
    · intro hh
      omega
    · intro hh
      omega
  · rw [hr] at htail
    simp only [if_true, Option.some.injEq, Prod.mk.injEq] at htail
    obtain ⟨h1, h2⟩ := htail
    constructor
    · intro hh
      omega
    · intro hh
      omega

/-- Witness for C6 on the placed length-2 ship of `exPlaced` (head `[0,0]`,
tail `[1,0]`, board size 5). -/
theorem isShipInBound_iff_witness :
    isShipInBound exPlaced exShip = true ↔
      (0 ≤ (0 : Int) ∧ (0 : Int) < (exPlaced.size : Int) ∧
       0 ≤ (0 : Int) ∧ (0 : Int) < (exPlaced.size : Int) ∧
       0 ≤ (1 : Int) ∧ (1 : Int) < (exPlaced.size : Int) ∧
       0 ≤ (0 : Int) ∧ (0 : Int) < (exPlaced.size : Int)) :=
  isShipInBound_iff exPlaced exShip 0 0 1 0 (by decide) (by decide) (by decide)

/-! ### Clamping (C1) -/

/-- Counterexample to C1 as stated: on the unlocked 5×5 board `exBoard`,
moving the length-2 unrotated ship to the drawn coordinate `[-1, 0]` leaves
the head's orientation-axis (x) component at `-1`, which does not lie in
`[0, N − L] = [0, 3]` — the source clamps only the upper bound
(`x > max ? max : x`) and passes negative draws through. -/
theorem moveShip_no_lower_clamp_cex :
    (findShip (moveShip exBoard 1 ((-1 : Int), 0) (some false)).ships 1).map
        Ship.position = some (some ((-1 : Int), 0)) ∧
    ¬(0 ≤ (-1 : Int)) := by
  decide

/-- C1 (amended): provided the ship fits on the board (`L ≤ N`) and the
drawn coordinate's orientation-axis component is non-negative, the head
coordinate committed by `moveShip` on an unlocked battlefield has its
orientation-axis component in `[0, N − L]`; only the upper bound is
clamped, so a negative draw passes through unchanged. -/
theorem moveShip_clamps_upper (b : Battlefield) (sid : Nat) (pos : Int × Int)
    (r : Bool) (s : Ship) (hl : b.isLocked = false)
    (hf : findShip b.ships sid = some s) (hlen : s.length ≤ b.size)
    (hnn : 0 ≤ (if r then pos.2 else pos.1)) :
    findShip (moveShip b sid pos (some r)).ships sid =
      some { s with isRotated := r,
                    position := some (clampPos b.size s.length pos r) } ∧
    0 ≤ (if r then (clampPos b.size s.length pos r).2
         else (clampPos b.size s.length pos r).1) ∧
    (if r then (clampPos b.size s.length pos r).2
     else (clampPos b.size s.length pos r).1) ≤
      (b.size : Int) - (s.length : Int) := by
  have hsid : s.id = sid := findShip_id hf
  refine ⟨?_, ?_, ?_⟩
  · rw [moveShip_eq pos (some r) hl hf]
    simp only [Option.getD_some]
    exact findShip_updateShip_self _ hf fun t ht => hsid
  · cases r
    · simp only [Bool.false_eq_true, if_false] at hnn ⊢
      simp only [clampPos, Bool.false_eq_true, if_false]
      split <;> omega
    · simp only [if_true] at hnn ⊢
      simp only [clampPos, if_true]
      split <;> omega
  · cases r
    · simp only [Bool.false_eq_true, if_false] at hnn ⊢
      simp only [clampPos, Bool.false_eq_true, if_false]
      split <;> omega
    · simp only [if_true] at hnn ⊢
      simp only [clampPos, if_true]
      split <;> omega

/-- Witness for the amended C1: drawing `[7, 1]` for the length-2 ship on
the 5×5 board commits head `[3, 1]`, within `[0, 3]`. -/
theorem moveShip_clamps_upper_witness :
    findShip (moveShip exBoard 1 ((7 : Int), 1) (some false)).ships 1 =
      some { exShip0 with
             isRotated := false,
             position := some (clampPos exBoard.size exShip0.length (7, 1) false) } ∧
    0 ≤ (if false then (clampPos exBoard.size exShip0.length ((7 : Int), 1) false).2
         else (clampPos exBoard.size exShip0.length ((7 : Int), 1) false).1) ∧
    (if false then (clampPos exBoard.size exShip0.length ((7 : Int), 1) false).2
     else (clampPos exBoard.size exShip0.length ((7 : Int), 1) false).1) ≤
      (exBoard.size : Int) - (exShip0.length : Int) :=
  moveShip_clamps_upper exBoard 1 (7, 1) false exShip0 rfl
    (by decide) (by decide) (by decide)

/-! ### Field retention on move (C2) -/

/-- Counterexample to C2 as stated: on `exHitMarked` the field `[0,0]` is
marked hit and is solely occupied by ship 1; after `moveShip` moves that
ship away to `[1,1]`, the field — marker and all — is deleted from the
index (`field.length == 1` triggers `Map.delete` regardless of marker), so
a marked field does not remain. -/
theorem moveShip_deletes_marked_field_cex :
    getField exHitMarked (0, 0) =
      some { position := (0, 0), ships := [1], marker := Marker.hit } ∧
    getField exMovedAway (0, 0) = none := by
  decide

/-- C2 (amended): when `moveShip` removes a ship from a field of its old
coordinates and that ship was the field's only occupant, the field is
deleted from the index entirely — regardless of whether it has been marked
missed or hit.  Markers do not keep a vacated field alive; only fields with
another remaining occupant survive. -/
theorem moveShip_deletes_sole_occupant (b : Battlefield) (sid : Nat)
    (pos : Int × Int) (r : Bool) (s : Ship) (p0 : Int × Int) (f : BField)
    (hl : b.isLocked = false) (hf : findShip b.ships sid = some s)
    (hmem : p0 ∈ shipCoordinates s) (hlook : getField b p0 = some f)
    (hsole : f.ships = [sid])
    (hnot : p0 ∉ shipCoordinates
      { s with isRotated := r,
               position := some (clampPos b.size s.length pos r) }) :
    getField (moveShip b sid pos (some r)) p0 = none := by
  have hsid : s.id = sid := findShip_id hf
  rw [moveShip_eq pos (some r) hl hf]
  unfold getField at hlook ⊢
  simp only [Option.getD_some]
  rw [← hsid] at hsole
  have h1 : fLookup ((shipCoordinates s).foldl
      (fun fs p => removeShipAt fs p s.id) b.fields) (joinKey p0) = none :=
    removeFold_deletes_sole s.id p0 _ _ f hmem hlook hsole
  have h2 : ∀ p ∈ shipCoordinates
      { s with isRotated := r,
               position := some (clampPos b.size s.length pos r) },
      joinKey p0 ≠ joinKey p :=
    fun p hp he => hnot (joinKey_inj he ▸ hp)
  rw [addFold_lookup_ne s.id _ _ _ h2]
  exact h1

/-- Witness for the amended C2 on the concrete hit-marked board. -/
theorem moveShip_deletes_sole_occupant_witness :
    getField (moveShip exHitMarked 1 (1, 1) (some false)) (0, 0) = none :=
  moveShip_deletes_sole_occupant exHitMarked 1 (1, 1) false exShip (0, 0)
    { position := (0, 0), ships := [1], marker := Marker.hit }
    rfl (by decide) (by decide) (by decide) (by decide) (by decide)

/-! ### Occupancy after a move (C3) -/

theorem shipRegisteredAt_iff (b : Battlefield) (sid : Nat) (p : Int × Int) :
    shipRegisteredAt b sid p ↔ RegK b.fields sid (joinKey p) :=
  Iff.rfl

/-- C3: after an unlocked `moveShip`, assuming the ship was registered only
on fields of its old coordinates, the ship is registered on exactly the
fields of its new coordinates — which are exactly `L` pairwise-distinct
cells — and on none of the previously occupied cells outside the new
ones. -/
theorem moveShip_occupancy (b : Battlefield) (sid : Nat) (pos : Int × Int)
    (r : Bool) (s : Ship) (hl : b.isLocked = false)
    (hf : findShip b.ships sid = some s)
    (hcons : ∀ k, RegK b.fields sid k →
      ∃ p ∈ shipCoordinates s, k = joinKey p) :
    moveOccupancyPost sid s
      { s with isRotated := r,
               position := some (clampPos b.size s.length pos r) }
      (moveShip b sid pos (some r)) := by
  have hsid : s.id = sid := findShip_id hf
  subst hsid
  unfold moveOccupancyPost
  have hmain : ∀ p : Int × Int,
      shipRegisteredAt (moveShip b s.id pos (some r)) s.id p ↔
        p ∈ shipCoordinates
          { s with isRotated := r,
                   position := some (clampPos b.size s.length pos r) } := by
    intro p
    rw [shipRegisteredAt_iff, moveShip_eq pos (some r) hl hf]
    dsimp only
    simp only [Option.getD_some]
    rw [regK_addFold, regK_removeFold]
    constructor
    · rintro (⟨hreg, hall⟩ | ⟨q, hq, he⟩)
      · obtain ⟨q, hq, he⟩ := hcons _ hreg
        exact absurd he (hall q hq)
      · rw [joinKey_inj he]
        exact hq
    · intro hp
      exact Or.inr ⟨p, hp, rfl⟩
  refine ⟨shipCoordinates_length rfl, shipCoordinates_nodup _, hmain, ?_⟩
  intro p hpold hpnew hreg
  exact hpnew ((hmain p).mp hreg)

/-- Witness for C3 on `exPlaced` (ship at `[0,0]`/`[1,0]` moved to
`[2,2]`). -/
theorem moveShip_occupancy_witness :
    moveOccupancyPost 1 exShip
      { exShip with
        isRotated := false,
        position := some (clampPos exPlaced.size exShip.length (2, 2) false) }
      (moveShip exPlaced 1 (2, 2) (some false)) :=
  moveShip_occupancy exPlaced 1 (2, 2) false exShip rfl (by decide)
    (by
      intro k hk
      obtain ⟨f, hfk, hm⟩ := hk
      have hfields : exPlaced.fields =
          [(joinKey ((0 : Int), (0 : Int)),
            { position := (0, 0), ships := [1], marker := Marker.unmarked }),
           (joinKey ((1 : Int), (0 : Int)),
            { position := (1, 0), ships := [1], marker := Marker.unmarked })] := by
        decide
      rw [hfields] at hfk
      simp only [fLookup] at hfk
      by_cases h1 : joinKey ((0 : Int), (0 : Int)) = k
      · exact ⟨(0, 0), by decide, h1.symm⟩
      · rw [if_neg h1] at hfk
        by_cases h2 : joinKey ((1 : Int), (0 : Int)) = k
        · exact ⟨(1, 0), by decide, h2.symm⟩
        · rw [if_neg h2] at hfk
          exact Option.noConfusion hfk)

/-! ### Random placement (C4): congruence and preservation lemmas -/

theorem shipCoordinates_congr {s1 s2 : Ship} (h1 : s1.length = s2.length)
    (h2 : s1.position = s2.position) (h3 : s1.isRotated = s2.isRotated) :
    shipCoordinates s1 = shipCoordinates s2 := by
  unfold shipCoordinates
  rw [h2, h1, h3]

theorem isShipInBound_congr {b1 b2 : Battlefield} {s1 s2 : Ship}
    (hsize : b1.size = b2.size) (hlen : s1.length = s2.length)
    (hpos : s1.position = s2.position) (hrot : s1.isRotated = s2.isRotated) :
    isShipInBound b1 s1 = isShipInBound b2 s2 := by
  unfold isShipInBound shipTail
  rw [shipCoordinates_congr hlen hpos hrot, hpos, hsize]

theorem hasPosition_of_inBound {b : Battlefield} {s : Ship}
    (h : isShipInBound b s = true) : hasPosition s = true := by
  unfold isShipInBound at h
  unfold hasPosition
  cases hp : s.position with
  | some pq => rfl
  | none =>
    rw [hp] at h
    cases ht : shipTail s <;> rw [ht] at h <;> exact Bool.noConfusion h

theorem findShip_map_core {l : List Ship} (g : Ship → Ship)
    (hg : ∀ t, shipCore (g t) = shipCore t) (tid : Nat) :
    (findShip (l.map g) tid).map shipCore = (findShip l tid).map shipCore := by
  induction l with
  | nil => rfl
  | cons t rest ih =>
    have hid : (g t).id = t.id := congrArg Prod.fst (hg t)
    simp only [findShip, List.map_cons] at ih ⊢
    by_cases ht : t.id = tid
    · simp only [List.find?, decide_eq_true (show (g t).id = tid by rw [hid, ht]),
        decide_eq_true ht, Option.map_some']
      rw [hg t]
    · simp only [List.find?,
        decide_eq_false (show ¬(g t).id = tid by rw [hid]; exact ht),
        decide_eq_false ht]
      exact ih

theorem map_ships_id {l : List Ship} (g : Ship → Ship)
    (hg : ∀ t, (g t).id = t.id) :
    (l.map g).map Ship.id = l.map Ship.id := by
  rw [List.map_map]
  exact List.map_congr_left fun t _ => hg t

theorem findShip_isSome_of_mem {l : List Ship} {sid : Nat}
    (h : sid ∈ l.map Ship.id) : ∃ s, findShip l sid = some s := by
  induction l with
  | nil => simp at h
  | cons t rest ih =>
    by_cases ht : t.id = sid
    · exact ⟨t, by simp only [findShip, List.find?, decide_eq_true ht]⟩
    · simp only [List.map_cons, List.mem_cons] at h
      rcases h with h | h
      · exact absurd h.symm ht
      · obtain ⟨s, hs⟩ := ih h
        exact ⟨s, by simp only [findShip, List.find?, decide_eq_false ht] at hs ⊢; exact hs⟩

theorem findShip_of_mem_nodup {l : List Ship} {s : Ship}
    (hnd : (l.map Ship.id).Nodup) (hs : s ∈ l) : findShip l s.id = some s := by
  induction l with
  | nil => exact absurd hs (List.not_mem_nil _)
  | cons t rest ih =>
    simp only [List.map_cons, List.nodup_cons] at hnd
    rcases List.mem_cons.mp hs with rfl | hs'
    · simp only [findShip]
      exact List.find?_cons_of_pos _ (by simp)
    · by_cases ht : t.id = s.id
      · exfalso
        exact hnd.1 (ht ▸ (List.mem_map.mpr ⟨s, hs', rfl⟩))
      · simp only [findShip, List.find?, decide_eq_false ht]
        exact ih hnd.2 hs'

theorem moveShip_pres (b : Battlefield) (sid : Nat) (pos : Int × Int)
    (rotArg : Option Bool) :
    (moveShip b sid pos rotArg).size = b.size ∧
    (moveShip b sid pos rotArg).ships.map Ship.id = b.ships.map Ship.id ∧
    ∀ tid, tid ≠ sid →
      findShip (moveShip b sid pos rotArg).ships tid = findShip b.ships tid := by
  unfold moveShip
  by_cases hl : b.isLocked
  · simp [hl]
  · simp only [hl, Bool.false_eq_true, if_false]
    cases hf : findShip b.ships sid with
    | none => exact ⟨rfl, rfl, fun tid _ => rfl⟩
    | some s =>
      have hsid : s.id = sid := findShip_id hf
      refine ⟨rfl, ?_, ?_⟩
      · exact updateShip_map_id _ fun t ht => by rw [hsid, ht]
      · intro tid htid
        exact findShip_updateShip_ne _ htid fun t _ => hsid

theorem checkShipCollision_core (b : Battlefield) (sid : Nat) :
    (checkShipCollision b sid).1.size = b.size ∧
    (checkShipCollision b sid).1.fields = b.fields ∧
    (checkShipCollision b sid).1.ships.map Ship.id = b.ships.map Ship.id ∧
    ∀ tid, (findShip (checkShipCollision b sid).1.ships tid).map shipCore =
      (findShip b.ships tid).map shipCore := by
  unfold checkShipCollision
  cases hf : findShip b.ships sid with
  | none => exact ⟨rfl, rfl, rfl, fun tid => rfl⟩
  | some s =>
    dsimp only
    unfold updateShip
    refine ⟨rfl, rfl, ?_, ?_⟩
    · rw [map_ships_id _ fun t => by split <;> rfl]
      exact map_ships_id _ fun t => by split <;> rfl
    · intro tid
      rw [findShip_map_core _ (fun t => by split <;> rfl) tid]
      exact findShip_map_core _ (fun t => by split <;> rfl) tid

theorem checkShipCollision_inBound {b b2 : Battlefield} {sid : Nat} {s : Ship}
    (hf : findShip b.ships sid = some s)
    (h : checkShipCollision b sid = (b2, false)) :
    isShipInBound b s = true := by
  simp only [checkShipCollision, hf] at h
  injection h with h1 h2
  cases hb : isShipInBound b s
  · rw [hb] at h2
    simp at h2
  · rfl

theorem placeOneShip_pres (rand : Nat → Int → Int → Int) :
    ∀ (fuel : Nat) (b : Battlefield) (sid n : Nat) (b2 : Battlefield) (n2 : Nat),
      placeOneShip rand fuel b sid n = some (b2, n2) →
      b2.size = b.size ∧ b2.ships.map Ship.id = b.ships.map Ship.id ∧
      ∀ tid, tid ≠ sid →
        (findShip b2.ships tid).map shipCore =
          (findShip b.ships tid).map shipCore := by
  intro fuel
  induction fuel with
  | zero =>
    intro b sid n b2 n2 h
    simp [placeOneShip] at h
  | succ fuel ih =>
    intro b sid n b2 n2 h
    simp only [placeOneShip] at h
    set B := moveShip b sid
      (rand (n + 1) 0 ((b.size : Int) - 1), rand (n + 2) 0 ((b.size : Int) - 1))
      (some (decide (rand n 0 1 ≠ 0))) with hB
    have hmv := moveShip_pres b sid
      (rand (n + 1) 0 ((b.size : Int) - 1), rand (n + 2) 0 ((b.size : Int) - 1))
      (some (decide (rand n 0 1 ≠ 0)))
    rw [← hB] at hmv
    cases hc : checkShipCollision B sid with
    | mk bc coll =>
      have hck := checkShipCollision_core B sid
      rw [hc] at hck
      simp only at hck
      simp only [hc] at h
      cases coll
      · simp only [Bool.false_eq_true, if_false, Option.some.injEq,
          Prod.mk.injEq] at h
        obtain ⟨hb2, _⟩ := h
        subst hb2
        refine ⟨by rw [hck.1, hmv.1], by rw [hck.2.2.1, hmv.2.1], ?_⟩
        intro tid htid
        rw [hck.2.2.2 tid, hmv.2.2 tid htid]
      · simp only [if_true] at h
        obtain ⟨h1, h2, h3⟩ := ih bc sid (n + 3) b2 n2 h
        refine ⟨by rw [h1, hck.1, hmv.1], by rw [h2, hck.2.2.1, hmv.2.1], ?_⟩
        intro tid htid
        rw [h3 tid htid, hck.2.2.2 tid, hmv.2.2 tid htid]

theorem placeOneShip_post (rand : Nat → Int → Int → Int) :
    ∀ (fuel : Nat) (b : Battlefield) (sid n : Nat) (b2 : Battlefield) (n2 : Nat),
      placeOneShip rand fuel b sid n = some (b2, n2) →
      sid ∈ b.ships.map Ship.id →
      ∃ bPre s', findShip bPre.ships sid = some s' ∧
        checkShipCollision bPre sid = (b2, false) := by
  intro fuel
  induction fuel with
  | zero =>
    intro b sid n b2 n2 h
    simp [placeOneShip] at h
  | succ fuel ih =>
    intro b sid n b2 n2 h hmem
    simp only [placeOneShip] at h
    set B := moveShip b sid
      (rand (n + 1) 0 ((b.size : Int) - 1), rand (n + 2) 0 ((b.size : Int) - 1))
      (some (decide (rand n 0 1 ≠ 0))) with hB
    have hmv := moveShip_pres b sid
      (rand (n + 1) 0 ((b.size : Int) - 1), rand (n + 2) 0 ((b.size : Int) - 1))
      (some (decide (rand n 0 1 ≠ 0)))
    rw [← hB] at hmv
    cases hc : checkShipCollision B sid with
    | mk bc coll =>
      have hck := checkShipCollision_core B sid
      rw [hc] at hck
      simp only at hck
      simp only [hc] at h
      cases coll
      · simp only [Bool.false_eq_true, if_false, Option.some.injEq,
          Prod.mk.injEq] at h
        obtain ⟨hb2, _⟩ := h
        subst hb2
        obtain ⟨s', hs'⟩ := findShip_isSome_of_mem (by rw [hmv.2.1]; exact hmem)
        exact ⟨B, s', hs', hc⟩
      · simp only [if_true] at h
        exact ih bc sid (n + 3) b2 n2 h
          (by rw [hck.2.2.1, hmv.2.1]; exact hmem)

theorem placeAll_pres (rand : Nat → Int → Int → Int) (fuel : Nat) :
    ∀ (l : List Nat) (b : Battlefield) (n : Nat) (b' : Battlefield),
      placeAll rand fuel l b n = some b' →
      b'.size = b.size ∧ b'.ships.map Ship.id = b.ships.map Ship.id ∧
      ∀ tid, tid ∉ l →
        (findShip b'.ships tid).map shipCore =
          (findShip b.ships tid).map shipCore := by
  intro l
  induction l with
  | nil =>
    intro b n b' h
    simp only [placeAll, Option.some.injEq] at h
    subst h
    exact ⟨rfl, rfl, fun _ _ => rfl⟩
  | cons sid rest ih =>
    intro b n b' h
    simp only [placeAll] at h
    cases hp : placeOneShip rand fuel b sid n with
    | none =>
      rw [hp] at h
      exact Option.noConfusion h
    | some pr =>
      obtain ⟨b1, n1⟩ := pr
      simp only [hp] at h
      obtain ⟨h1, h2, h3⟩ := ih b1 n1 b' h
      obtain ⟨g1, g2, g3⟩ := placeOneShip_pres rand fuel b sid n b1 n1 hp
      refine ⟨by rw [h1, g1], by rw [h2, g2], ?_⟩
      intro tid htid
      have htid1 : tid ∉ rest := fun hh => htid (List.mem_cons_of_mem _ hh)
      have htid2 : tid ≠ sid := fun hh => htid (hh ▸ List.mem_cons_self _ _)
      rw [h3 tid htid1, g3 tid htid2]

theorem placeAll_post (rand : Nat → Int → Int → Int) (fuel : Nat) :
    ∀ (l : List Nat) (b : Battlefield) (n : Nat) (b' : Battlefield),
      placeAll rand fuel l b n = some b' →
      (∀ sid ∈ l, sid ∈ b.ships.map Ship.id) →
      ∀ sid ∈ l, ∃ bPre s' bPost,
        findShip bPre.ships sid = some s' ∧
        checkShipCollision bPre sid = (bPost, false) ∧
        b'.size = bPost.size ∧
        (findShip b'.ships sid).map shipCore =
          (findShip bPost.ships sid).map shipCore := by
  intro l
  induction l with
  | nil =>
    intro b n b' _ _ sid hs
    exact absurd hs (List.not_mem_nil _)
  | cons sid0 rest ih =>
    intro b n b' h hmem sid hs
    simp only [placeAll] at h
    cases hp : placeOneShip rand fuel b sid0 n with
    | none =>
      rw [hp] at h
      exact Option.noConfusion h
    | some pr =>
      obtain ⟨b1, n1⟩ := pr
      simp only [hp] at h
      obtain ⟨g1, g2, g3⟩ := placeOneShip_pres rand fuel b sid0 n b1 n1 hp
      have hmem1 : ∀ t ∈ rest, t ∈ b1.ships.map Ship.id := by
        intro t htr
        rw [g2]
        exact hmem t (List.mem_cons_of_mem _ htr)
      by_cases hrest : sid ∈ rest
      · exact ih b1 n1 b' h hmem1 sid hrest
      · have hsid0 : sid = sid0 := by
          rcases List.mem_cons.mp hs with h' | h'
          · exact h'
          · exact absurd h' hrest
        subst hsid0
        obtain ⟨bPre, s', hfs, hck⟩ :=
          placeOneShip_post rand fuel b sid n b1 n1 hp (hmem sid hs)
        obtain ⟨a1, a2, a3⟩ := placeAll_pres rand fuel rest b1 n1 b' h
        exact ⟨bPre, s', b1, hfs, hck, by rw [a1], a3 sid hrest⟩

/-- C4: if `random()` terminates (modelled by the fuelled `randomPlace`
returning `some`) under a random source honouring the requested closed
ranges, then it first sets every ship to unplaced and empties the field
index, processes the ships in reverse collection order, and at termination
every ship of the collection is placed, lies in bounds, and its state is
the one produced by its final collision/bounds check, which reported no
collision. -/
theorem randomPlace_spec (rand : Nat → Int → Int → Int) (fuel : Nat)
    (b b' : Battlefield)
    (hrand : ∀ n lo hi, lo ≤ hi → lo ≤ rand n lo hi ∧ rand n lo hi ≤ hi)
    (hnodup : (b.ships.map Ship.id).Nodup)
    (h : randomPlace rand fuel b = some b') :
    (clearForRandom b).fields = [] ∧
    (∀ s ∈ (clearForRandom b).ships, s.position = none) ∧
    randomPlace rand fuel b =
      placeAll rand fuel ((b.ships.map Ship.id).reverse) (clearForRandom b) 0 ∧
    randomEnsures b' := by
  have hids0 : (clearForRandom b).ships.map Ship.id = b.ships.map Ship.id := by
    unfold clearForRandom
    exact map_ships_id _ fun t => rfl
  refine ⟨rfl, ?_, rfl, ?_⟩
  · intro s hs
    simp only [clearForRandom, List.mem_map] at hs
    obtain ⟨t, _, rfl⟩ := hs
    rfl
  · unfold randomEnsures
    intro s hs
    unfold randomPlace at h
    obtain ⟨a1, a2, _⟩ := placeAll_pres rand fuel _ _ _ _ h
    have hndb' : (b'.ships.map Ship.id).Nodup := by
      rw [a2, hids0]
      exact hnodup
    have hsidmem : s.id ∈ (b.ships.map Ship.id).reverse := by
      rw [List.mem_reverse, ← hids0, ← a2]
      exact List.mem_map.mpr ⟨s, hs, rfl⟩
    obtain ⟨bPre, s1, bPost, hfPre, hcheck, hsize, hcore⟩ :=
      placeAll_post rand fuel _ _ _ _ h
        (fun sid hsid => by rw [hids0]; exact List.mem_reverse.mp hsid)
        s.id hsidmem
    have hfs : findShip b'.ships s.id = some s := findShip_of_mem_nodup hndb' hs
    rw [hfs] at hcore
    simp only [Option.map_some'] at hcore
    have hck := checkShipCollision_core bPre s.id
    rw [hcheck] at hck
    simp only at hck
    have hcore2 := hck.2.2.2 s.id
    rw [hfPre] at hcore2
    simp only [Option.map_some'] at hcore2
    rw [hcore2] at hcore
    have hcs : shipCore s = shipCore s1 := by
      injection hcore
    have hib1 : isShipInBound bPre s1 = true :=
      checkShipCollision_inBound hfPre hcheck
    have hlen : s.length = s1.length := congrArg (fun c => c.2.1) hcs
    have hpos : s.position = s1.position := congrArg (fun c => c.2.2.1) hcs
    have hrot : s.isRotated = s1.isRotated := congrArg (fun c => c.2.2.2) hcs
    have hsz : b'.size = bPre.size := by rw [hsize, hck.1]
    have hib : isShipInBound b' s = true := by
      rw [isShipInBound_congr hsz hlen hpos hrot]
      exact hib1
    exact ⟨hasPosition_of_inBound hib, hib, bPre, bPost, hcheck, hsize,
      by rw [hcore2, hcore]⟩

/-- Witness for C4: a 1×1 board with one length-1 ship, a lower-bound random
source and one unit of fuel terminate in `exTinyPlaced`. -/
theorem randomPlace_spec_witness :
    (clearForRandom exTiny).fields = [] ∧
    (∀ s ∈ (clearForRandom exTiny).ships, s.position = none) ∧
    randomPlace randLo 1 exTiny =
      placeAll randLo 1 ((exTiny.ships.map Ship.id).reverse)
        (clearForRandom exTiny) 0 ∧
    randomEnsures exTinyPlaced :=
  randomPlace_spec randLo 1 exTiny exTinyPlaced
    (fun n lo hi hle => ⟨le_refl lo, hle⟩) (by decide) (by decide)
